import Mathlib

/-!
Verification development for the Julia allocation-profiler branch.

The definitions below are shallow embeddings of the C++ and Julia sources of
the profiler: the sampling gate and free tracking of the hot-path hooks
(gc-alloc-profiler.cpp, several revisions), the stack-trie and call-graph
aggregation structures, the memoizing frame cache, the stop-time control
flow, the frame resolvers, the JSON interchange serializer, and the
string-escaping routines.  unordered_map / Dict values are embedded as
association lists in insertion order; machine counters are embedded as Nat
(the counters only ever grow and are compared after an increment, so no
wrap-around is observable); abstract runtime handles (type descriptors, frame
identities, raw backtrace entries) are embedded as Nat.
-/

set_option linter.unusedVariables false

/-- Association-list lookup, the embedding of unordered_map::find. -/
def alookup {κ β : Type} [DecidableEq κ] : List (κ × β) → κ → Option β
  | [], _ => none
  | (k0, v0) :: rest, k => if k0 = k then some v0 else alookup rest k

/-- Association-list assignment, the embedding of `map[k] = v`: overwrite the
existing entry for the key, or append a new entry. -/
def aset {κ β : Type} [DecidableEq κ] : List (κ × β) → κ → β → List (κ × β)
  | [], k, v => [(k, v)]
  | (k0, v0) :: rest, k, v =>
      if k0 = k then (k0, v) :: rest else (k0, v0) :: aset rest k v

/-- Find-then-increment-or-insert on a counting map, the embedding of the
`find / [k] = 1 / [k]++` pattern used by incr_or_add_alloc, add_call_edge and
the trie's allocs_by_type_address update. -/
def incrCount {κ : Type} [DecidableEq κ] : List (κ × Nat) → κ → List (κ × Nat)
  | [], k => [(k, 1)]
  | (k0, n) :: rest, k =>
      if k0 = k then (k0, n + 1) :: rest else (k0, n) :: incrCount rest k

/-- Count held by a counting map for a key (0 when absent). -/
def countOf {κ : Type} [DecidableEq κ] (m : List (κ × Nat)) (k : κ) : Nat :=
  (alookup m k).getD 0

-- == type registry (register_type_string, identical in every revision) ==

/-- Embedding of register_type_string: look the type address up in
type_name_by_address; if present return at once, otherwise stringify the type
and insert.  The Bool records whether _type_as_string was invoked.  The
stringifier _type_as_string is external state inspection, passed in as
`typeName`. -/
def register_type_string (typeName : Nat → String)
    (m : List (Nat × String)) (ty : Nat) : List (Nat × String) × Bool :=
  match alookup m ty with
  | some _ => (m, false)
  | none => (m ++ [(ty, typeName ty)], true)

-- == the sampled recording hook of gc-alloc-profiler.cpp (part_002 revision) ==

/-- One entry of AllocProfile::allocs: type address, captured raw backtrace,
requested size. -/
structure AllocRecord where
  type_address : Nat
  backtrace : List Nat
  size : Nat
deriving DecidableEq

/-- Embedding of the AllocProfile struct of the sampling revision: sampling
parameter skip_every, recorded allocs, the type-name table, the
value-address → type-address reverse index used by free tracking, the
per-type free counts, and the two sampling counters. -/
structure GProfile where
  skip_every : Nat
  allocs : List AllocRecord
  type_name_by_address : List (Nat × String)
  type_address_by_value_address : List (Nat × Nat)
  frees_by_type_address : List (Nat × Nat)
  alloc_counter : Nat
  last_recorded_alloc : Nat
deriving DecidableEq

/-- The profile as reset by jl_start_alloc_profile(skip_every) on a fresh
session: empty tables and zeroed counters. -/
def initProfile (k : Nat) : GProfile :=
  ⟨k, [], [], [], [], 0, 0⟩

/-- Embedding of _record_allocated_value(val, size): increment alloc_counter,
return early when alloc_counter - last_recorded_alloc < skip_every, otherwise
set last_recorded_alloc, register the type string, update the reverse index,
and push the alloc record.  jl_typeof and the stack capture are external,
passed in as `typeOf` and `stack`. -/
def _record_allocated_value (typeOf : Nat → Nat) (typeName : Nat → String)
    (stack : List Nat) (p : GProfile) (val size : Nat) : GProfile :=
  let counter := p.alloc_counter + 1
  let diff := counter - p.last_recorded_alloc
  if diff < p.skip_every then
    { p with alloc_counter := counter }
  else
    let ty := typeOf val
    { p with
      alloc_counter := counter
      last_recorded_alloc := counter
      type_name_by_address := (register_type_string typeName p.type_name_by_address ty).1
      type_address_by_value_address := aset p.type_address_by_value_address val ty
      allocs := p.allocs ++ [⟨ty, stack, size⟩] }

/-- Embedding of _record_freed_value(tagged_val): look the value address up in
the reverse index; if absent return, otherwise bump frees_by_type_address for
the recorded type.  The reverse index itself is left untouched. -/
def _record_freed_value (p : GProfile) (val : Nat) : GProfile :=
  match alookup p.type_address_by_value_address val with
  | none => p
  | some ty =>
      match alookup p.frees_by_type_address ty with
      | none => { p with frees_by_type_address := aset p.frees_by_type_address ty 1 }
      | some n => { p with frees_by_type_address := aset p.frees_by_type_address ty (n + 1) }

/-- Run N allocation events (event m allocates value `vals m` of size
`sizes m` with captured stack `stackFn m`) through the recording hook,
starting from a fresh session with sampling interval k. -/
def runAllocs (typeOf : Nat → Nat) (typeName : Nat → String)
    (stackFn : Nat → List Nat) (vals sizes : Nat → Nat) (k : Nat) : Nat → GProfile
  | 0 => initProfile k
  | n + 1 =>
      _record_allocated_value typeOf typeName (stackFn n)
        (runAllocs typeOf typeName stackFn vals sizes k n) (vals n) (sizes n)

/-- The 1-based positions of the events that the hook actually recorded (an
event is recorded exactly when it makes the allocs list grow). -/
def recordedPositions (typeOf : Nat → Nat) (typeName : Nat → String)
    (stackFn : Nat → List Nat) (vals sizes : Nat → Nat) (k N : Nat) : List Nat :=
  ((List.range N).filter (fun n =>
      decide ((runAllocs typeOf typeName stackFn vals sizes k n).allocs.length
        < (runAllocs typeOf typeName stackFn vals sizes k (n + 1)).allocs.length))).map
    (fun n => n + 1)

example :
    recordedPositions (fun v => v) (fun _ => "T") (fun _ => []) (fun _ => 0)
      (fun _ => 8) 3 10 = [3, 6, 9] := by decide

example :
    recordedPositions (fun v => v) (fun _ => "T") (fun _ => []) (fun _ => 0)
      (fun _ => 8) 0 4 = [1, 2, 3, 4] := by decide

example :
    recordedPositions (fun v => v) (fun _ => "T") (fun _ => []) (fun _ => 0)
      (fun _ => 8) 1 4 = [1, 2, 3, 4] := by decide

-- == the stack trie of the trie_insert revisions (part_005 / part_003) ==

/-- Embedding of StackTrieNode: children keyed by the stringified frame
(stack_frame_to_string / entry_to_string), and per-type allocation counts.
The key type is kept generic so the same structure also serves the
path-keyed model used to state the aggregator claim. -/
inductive Trie (κ : Type) where
  | node : List (κ × Trie κ) → List (Nat × Nat) → Trie κ

/-- Children map of a trie node. -/
def Trie.children {κ : Type} : Trie κ → List (κ × Trie κ)
  | .node ch _ => ch

/-- allocs_by_type_address of a trie node. -/
def Trie.allocs {κ : Type} : Trie κ → List (Nat × Nat)
  | .node _ al => al

/-- A freshly constructed StackTrieNode: no children, no counts. -/
def emptyTrie {κ : Type} : Trie κ :=
  .node [] []

/-- Embedding of trie_insert(node, path, idx, type_address): when the path is
exhausted bump allocs_by_type_address[type]; otherwise look the next key up in
children, creating a fresh child when absent, and recurse into it. -/
def trie_insert {κ : Type} [DecidableEq κ] : Trie κ → List κ → Nat → Trie κ
  | .node ch al, [], ty => .node ch (incrCount al ty)
  | .node ch al, key :: rest, ty =>
      let child := (alookup ch key).getD emptyTrie
      .node (aset ch key (trie_insert child rest ty)) al

/-- Follow a path of keys down from a node. -/
def lookupPath {κ : Type} [DecidableEq κ] : Trie κ → List κ → Option (Trie κ)
  | t, [] => some t
  | t, key :: rest =>
      match alookup t.children key with
      | some c => lookupPath c rest
      | none => none

/-- The linear trie laid down by inserting one path: a chain of single-child
nodes ending in a node holding count c for the one type. -/
def trieChain {κ : Type} : List κ → Nat → Nat → Trie κ
  | [], ty, c => .node [] [(ty, c)]
  | key :: rest, ty, c => .node [(key, trieChain rest ty c)] []

/-- The trie laid down by inserting two paths that agree on pre and then
diverge at keys a ≠ b: a shared spine over pre ending in a two-child node. -/
def trieBranch {κ : Type} : List κ → κ → κ → List κ → List κ → Nat → Nat → Trie κ
  | [], a, b, s, u, ty1, ty2 => .node [(a, trieChain s ty1 1), (b, trieChain u ty2 1)] []
  | key :: pre, a, b, s, u, ty1, ty2 => .node [(key, trieBranch pre a b s u ty1 ty2)] []

-- == the flat call graph of record_alloc (gc-alloc-profiler.cpp, first revision) ==

/-- Embedding of CallGraphNode: nativeness flag, outgoing call edges with
multiplicities, and per-type allocation counts.  Frame labels (jl_value_t*
method names) are embedded as Nat. -/
structure CallGraphNode where
  is_native : Bool
  calls_out : List (Nat × Nat)
  allocs_by_type_address : List (Nat × Nat)
deriving DecidableEq

/-- Embedding of AllocProfile::nodes: one flat map from frame label to node. -/
abbrev CGNodes : Type := List (Nat × CallGraphNode)

/-- Embedding of get_or_insert_node, restricted to its effect on the map:
keep the map when the label is present, otherwise add a fresh node. -/
def get_or_insert_node (nodes : CGNodes) (label : Nat) (isNative : Bool) : CGNodes :=
  match alookup nodes label with
  | some _ => nodes
  | none => nodes ++ [(label, ⟨isNative, [], []⟩)]

/-- Apply an in-place node mutation at one label of the map. -/
def node_modify (nodes : CGNodes) (label : Nat) (f : CallGraphNode → CallGraphNode) : CGNodes :=
  nodes.map (fun p => if p.1 = label then (p.1, f p.2) else p)

/-- Embedding of incr_or_add_alloc. -/
def incr_or_add_alloc (n : CallGraphNode) (ty : Nat) : CallGraphNode :=
  { n with allocs_by_type_address := incrCount n.allocs_by_type_address ty }

/-- Embedding of add_call_edge. -/
def add_call_edge (n : CallGraphNode) (toLabel : Nat) : CallGraphNode :=
  { n with calls_out := incrCount n.calls_out toLabel }

/-- One raw backtrace entry as seen by record_alloc: its jl_bt_is_native flag
and the method labels decoded from it by get_julia_methods (innermost inlined
frame first, following the inlined_at chain). -/
structure BtEntry where
  is_native : Bool
  methods : List Nat
deriving DecidableEq

/-- The frame labels record_alloc actually walks: native entries are skipped
and every remaining entry contributes its method labels in order.  The raw
backtrace is innermost-first, so this list is innermost-first. -/
def flattenStack (stack : List BtEntry) : List Nat :=
  (stack.filter (fun e => !e.is_native)).flatMap (fun e => e.methods)

/-- The label loop of record_alloc: the first label processed receives the
allocation count (prev_frame_label is null), every later label receives a
call edge to the previously processed label. -/
def record_alloc_go (ty : Nat) : CGNodes → Option Nat → List Nat → CGNodes
  | nodes, _, [] => nodes
  | nodes, prev, label :: rest =>
      let nodes1 := get_or_insert_node nodes label false
      let nodes2 :=
        match prev with
        | none => node_modify nodes1 label (fun n => incr_or_add_alloc n ty)
        | some p => node_modify nodes1 label (fun n => add_call_edge n p)
      record_alloc_go ty nodes2 (some label) rest

/-- Embedding of record_alloc(profile, stack, type_address) of the call-graph
revision of gc-alloc-profiler.cpp. -/
def record_alloc (nodes : CGNodes) (stack : List BtEntry) (ty : Nat) : CGNodes :=
  record_alloc_go ty nodes none (flattenStack stack)

/-- Allocation count recorded for type ty on the node labelled l (0 when the
node is absent). -/
def allocCountCG (nodes : CGNodes) (l ty : Nat) : Nat :=
  match alookup nodes l with
  | none => 0
  | some n => countOf n.allocs_by_type_address ty

/-- Call-edge multiplicity from the node labelled l to the label m. -/
def edgeCountCG (nodes : CGNodes) (l m : Nat) : Nat :=
  match alookup nodes l with
  | none => 0
  | some n => countOf n.calls_out m

/-- Number of adjacent pairs (x, y) in the list with y = l and x = m: the
multiset of call edges laid down by one walk, read as l calls m. -/
def adjCount : List Nat → Nat → Nat → Nat
  | x :: y :: rest, l, m => (if y = l ∧ x = m then 1 else 0) + adjCount (y :: rest) l m
  | _, _, _ => 0

/-- Modelled from the spec: the claimed aggregator walks the resolved stack
starting at the session root from the outermost (oldest) frame inward —
i.e. the captured innermost-first label list reversed — looking up or
creating a child node keyed by frame identity at each frame, and increments
allocations_by_type[type] on the terminal node only after the full stack has
been consumed.  Stated over the path-keyed trie for comparison with
record_alloc. -/
def record_alloc_claimed (root : Trie Nat) (stack : List BtEntry) (ty : Nat) : Trie Nat :=
  trie_insert root (flattenStack stack).reverse ty

/-- The positive per-node allocation counts for one type across the flat call
graph, one entry per node holding a positive count. -/
def cgCountsFor (nodes : CGNodes) (ty : Nat) : List Nat :=
  nodes.filterMap (fun p =>
    match alookup p.2.allocs_by_type_address ty with
    | some n => if 0 < n then some n else none
    | none => none)

mutual

/-- The positive per-node allocation counts for one type across a trie, one
entry per node holding a positive count. -/
def trieCountsFor (ty : Nat) : Trie Nat → List Nat
  | .node ch al =>
      (match alookup al ty with
       | some n => if 0 < n then [n] else []
       | none => []) ++ trieCountsForList ty ch

/-- trieCountsFor over a children list. -/
def trieCountsForList (ty : Nat) : List (Nat × Trie Nat) → List Nat
  | [] => []
  | (_, t) :: rest => trieCountsFor ty t ++ trieCountsForList ty rest

end

example :
    cgCountsFor
      (record_alloc (record_alloc [] [⟨false, [1]⟩, ⟨false, [2]⟩] 7)
        [⟨false, [1]⟩, ⟨false, [3]⟩] 7) 7 = [2] := by decide

example :
    trieCountsFor 7
      (record_alloc_claimed (record_alloc_claimed emptyTrie [⟨false, [1]⟩, ⟨false, [2]⟩] 7)
        [⟨false, [1]⟩, ⟨false, [3]⟩] 7) = [1, 1] := by decide

-- == the memoizing frame cache (GraphBuilder::cache / get_frames) ==

/-- Embedding of StackFrame as produced by the resolvers. -/
structure StackFrameR where
  func_name : String
  file_name : String
  line_no : Int
deriving DecidableEq

/-- Embedding of GraphBuilder: the memoization cache keyed by the raw entry's
bit-identity (frame_as_string copies the entry's bytes, embedded as the entry
itself), plus the hit and miss counters.  cache_misses counts exactly the
invocations of the underlying resolvers. -/
structure GraphBuilder where
  cache : List (Nat × List StackFrameR)
  cache_hits : Nat
  cache_misses : Nat
deriving DecidableEq

/-- Embedding of get_frames(builder, entry, entry_size, is_native): look the
entry up in the cache; on a miss bump cache_misses, resolve through
get_native_frames or get_julia_frames (passed in as natF / julF), and store
the result; on a hit bump cache_hits and return the stored frames. -/
def get_frames (natF julF : Nat → List StackFrameR) (b : GraphBuilder)
    (entry : Nat) (isNative : Bool) : List StackFrameR × GraphBuilder :=
  match alookup b.cache entry with
  | none =>
      let frames := if isNative then natF entry else julF entry
      (frames,
        { cache := b.cache ++ [(entry, frames)]
          cache_hits := b.cache_hits
          cache_misses := b.cache_misses + 1 })
  | some frames =>
      (frames, { b with cache_hits := b.cache_hits + 1 })

/-- Cache consistency: every cached entry holds exactly what the resolver for
that entry's nativeness would produce.  jl_bt_is_native is a function of the
entry's bytes, embedded as nativeOf. -/
def CacheOK (nativeOf : Nat → Bool) (natF julF : Nat → List StackFrameR)
    (b : GraphBuilder) : Prop :=
  ∀ e fr, alookup b.cache e = some fr → fr = (if nativeOf e then natF e else julF e)

-- == stop-time control flow of the exported stop entry points ==

/-- The stop-time steps, in source order, of the various stop entry points. -/
inductive StopAction where
  | clearEnabledFlag
  | serializeProfile
  | flushStream
  | clearOutStream
  | clearProfileRef
  | returnResults
deriving DecidableEq

/-- Statement order of jl_stop_alloc_profile in the call-graph revision of
gc-alloc-profiler.cpp: serialize, flush, null g_alloc_profile_out (the global
that gates the recording hook in that revision's header), null the profile. -/
def jl_stop_alloc_profile_graph_trace : List StopAction :=
  [.serializeProfile, .flushStream, .clearOutStream, .clearProfileRef]

/-- Statement order of jl_finish_and_write_alloc_profile: clear
g_alloc_profile_enabled, serialize, null the profile. -/
def jl_finish_and_write_alloc_profile_trace : List StopAction :=
  [.clearEnabledFlag, .serializeProfile, .clearProfileRef]

/-- Statement order of jl_stop_and_write_alloc_profile in the sampling
revision: clear g_alloc_profile_enabled, then return the results struct. -/
def jl_stop_and_write_alloc_profile_trace : List StopAction :=
  [.clearEnabledFlag, .returnResults]

/-- Statement order of jl_stop_alloc_profile in the raw-array revision:
clear g_alloc_profile_enabled and nothing else. -/
def jl_stop_alloc_profile_raw_trace : List StopAction :=
  [.clearEnabledFlag]

/-- The stop-time work steps other than clearing globals: serialization,
flushing, result assembly. -/
def stopWork : List StopAction :=
  [.serializeProfile, .flushStream, .returnResults]

/-- Whether the given gate-clearing action occurs in the trace strictly
before every serialization / flush / result-assembly step. -/
def gateClearedBeforeWork (gate : StopAction) : List StopAction → Bool
  | [] => false
  | a :: rest =>
      if a = gate then true
      else if a ∈ stopWork then false
      else gateClearedBeforeWork gate rest

-- == frame resolvers and their failure behavior ==

/-- One jl_line_info_node on the inlined-at chain: the method symbol when the
method/method-instance chain ends in a symbol (none embeds the case where it
does not, printed as "Unknown"), the file symbol, and the line. -/
structure LineInfoNode where
  methodSym : Option String
  file : String
  line : Int
deriving DecidableEq

/-- What a raw Julia backtrace entry decodes to: either a CodeInfo whose
debug-info walk yields a chain of line-info nodes, or something that is not a
CodeInfo (embedded with the pointer rendered as a string, as sprintf does). -/
inductive BtCode where
  | codeInfo : List LineInfoNode → BtCode
  | noCodeInfo : String → BtCode
deriving DecidableEq

/-- Embedding of get_julia_frames of the call-graph revision of
gc-alloc-profiler.cpp: a non-CodeInfo entry yields exactly one synthetic
frame (the pointer string, file "unknown", line 0); a CodeInfo entry yields
one frame per line-info node, naming it "Unknown" when the symbol lookup
yields no name. -/
def get_julia_frames : BtCode → List StackFrameR
  | .noCodeInfo ptrStr => [⟨ptrStr, "unknown", 0⟩]
  | .codeInfo locs => locs.map (fun l => ⟨l.methodSym.getD "Unknown", l.file, l.line⟩)

/-- Embedding of get_julia_frames of the defensive revisions (part_002,
part_003, part_005): a non-CodeInfo entry prints a warning and yields no
frames at all; a CodeInfo entry is handled as above. -/
def get_julia_frames_defensive : BtCode → List StackFrameR
  | .noCodeInfo _ => []
  | .codeInfo locs => locs.map (fun l => ⟨l.methodSym.getD "Unknown", l.file, l.line⟩)

/-- Embedding of get_native_frame: jl_getFunctionInfo yields a list of
(func_name?, file_name, line) records; frames whose func_name is null are
dropped, the rest are returned in order. -/
def get_native_frame (frames : List (Option String × String × Int)) : List StackFrameR :=
  frames.filterMap (fun f =>
    match f.1 with
    | none => none
    | some name => some ⟨name, f.2.1, f.2.2⟩)

example : gateClearedBeforeWork .clearOutStream jl_stop_alloc_profile_graph_trace = false := by decide
example : gateClearedBeforeWork .clearEnabledFlag jl_finish_and_write_alloc_profile_trace = true := by decide
example : get_julia_frames_defensive (.noCodeInfo "0x1") = [] := by decide
example : get_julia_frames (.noCodeInfo "0x1") = [⟨"0x1", "unknown", 0⟩] := by decide

-- == the structured interchange serializer (write_as_json.jl) ==

/-- A JSON-shaped value; objects keep their fields in emission order. -/
inductive JVal where
  | num : Int → JVal
  | str : String → JVal
  | arr : List JVal → JVal
  | obj : List (String × JVal) → JVal

/-- The field names of an object (empty for non-objects). -/
def objKeys : JVal → List String
  | .obj l => l.map Prod.fst
  | _ => []

/-- Field access on an object. -/
def objField (k : String) : JVal → Option JVal
  | .obj l => alookup l k
  | _ => none

/-- Elements of an array (empty for non-arrays). -/
def arrElems : JVal → List JVal
  | .arr l => l
  | _ => []

/-- The integers held by a list of JSON values. -/
def numsOf (l : List JVal) : List Int :=
  l.filterMap (fun v =>
    match v with
    | .num i => some i
    | _ => none)

/-- Embedding of SerializationState: the location and type interning tables,
in insertion order.  StackFrame and Type dictionary keys are embedded by
their rendered strings. -/
structure SerializationState where
  location_ids : List (String × Nat)
  type_ids : List (String × Nat)

/-- Embedding of get_location_id: return the interned id when the frame is
already known, otherwise assign the next id (the current table size). -/
def get_location_id (st : SerializationState) (frame : String) :
    Nat × SerializationState :=
  match alookup st.location_ids frame with
  | some i => (i, st)
  | none =>
      (st.location_ids.length,
       { st with location_ids := st.location_ids ++ [(frame, st.location_ids.length)] })

/-- Embedding of get_type_id, interning into type_ids. -/
def get_type_id (st : SerializationState) (ty : String) :
    Nat × SerializationState :=
  match alookup st.type_ids ty with
  | some i => (i, st)
  | none =>
      (st.type_ids.length,
       { st with type_ids := st.type_ids ++ [(ty, st.type_ids.length)] })

/-- Embedding of transform_stack: intern every frame of the stacktrace in
order. -/
def transform_stack (st : SerializationState) :
    List String → List Nat × SerializationState
  | [] => ([], st)
  | f :: rest =>
      let (i, st1) := get_location_id st f
      let (is, st2) := transform_stack st1 rest
      (i :: is, st2)

/-- One decoded Alloc as consumed by the serializer: rendered stacktrace,
bytes_allocated, rendered type. -/
structure AllocInput where
  stacktrace : List String
  bytes_allocated : Int
  type : String

/-- The allocs loop of write_as_json_help: emit one SerializedAlloc named
tuple per alloc, threading the interning state. -/
def serialize_allocs (st : SerializationState) :
    List AllocInput → List JVal × SerializationState
  | [] => ([], st)
  | a :: rest =>
      let (ids, st1) := transform_stack st a.stacktrace
      let (tid, st2) := get_type_id st1 a.type
      let (vs, st3) := serialize_allocs st2 rest
      (JVal.obj
        [("stack", JVal.arr (ids.map (fun i => JVal.num (Int.ofNat i)))),
         ("size", JVal.num a.bytes_allocated),
         ("type_id", JVal.num (Int.ofNat tid))] :: vs, st3)

/-- Embedding of write_as_json_help: serialize the allocs, then emit the
four-key object with the frees array empty and the two interning tables
rendered as arrays of named tuples, locations as (loc=..., id=...) and types
as (name=..., id=...). -/
def write_as_json_help (allocs : List AllocInput) : JVal :=
  let (vs, st) := serialize_allocs ⟨[], []⟩ allocs
  JVal.obj
    [("allocs", JVal.arr vs),
     ("frees", JVal.arr []),
     ("locations", JVal.arr (st.location_ids.map (fun p =>
        JVal.obj [("loc", JVal.str p.1), ("id", JVal.num (Int.ofNat p.2))]))),
     ("types", JVal.arr (st.type_ids.map (fun p =>
        JVal.obj [("name", JVal.str p.1), ("id", JVal.num (Int.ofNat p.2))])))]

/-- All location ids referenced from the stack arrays of the allocs entries. -/
def stackIdsOf (out : JVal) : List Int :=
  (arrElems ((objField "allocs" out).getD (JVal.arr []))).flatMap (fun v =>
    numsOf (arrElems ((objField "stack" v).getD (JVal.arr []))))

/-- Whether a locations entry carries the given id. -/
def idFieldIs (i : Int) (v : JVal) : Bool :=
  match objField "id" v with
  | some (JVal.num j) => j == i
  | _ => false

/-- How many locations entries carry the given id. -/
def locationsIdCount (out : JVal) (i : Int) : Nat :=
  ((arrElems ((objField "locations" out).getD (JVal.arr []))).filter (idFieldIs i)).length

-- == the string escapers ==

/-- Lowercase hexadecimal digit. -/
def hexDigit (n : Nat) : Char :=
  if n < 10 then Char.ofNat (48 + n) else Char.ofNat (87 + n)

/-- Four lowercase hexadecimal digits, as printf %04x renders a value below
0x10000. -/
def hex4 (n : Nat) : List Char :=
  [hexDigit (n / 4096 % 16), hexDigit (n / 256 % 16), hexDigit (n / 16 % 16), hexDigit (n % 16)]

/-- Per-character body of print_str_escape_dot: escape the double quote and
the backslash, give the named C escapes for \b \f \n \r \t, render the
remaining control characters as \uXXXX, and pass everything else through. -/
def escape_dot_char (c : Char) : List Char :=
  if c = '"' then ['\\', '"']
  else if c = '\\' then ['\\', '\\']
  else if c = Char.ofNat 8 then ['\\', 'b']
  else if c = Char.ofNat 12 then ['\\', 'f']
  else if c = Char.ofNat 10 then ['\\', 'n']
  else if c = Char.ofNat 13 then ['\\', 'r']
  else if c = Char.ofNat 9 then ['\\', 't']
  else if c.toNat ≤ 31 then '\\' :: 'u' :: hex4 c.toNat
  else [c]

/-- Embedding of print_str_escape_dot: a double-quoted token around the
escaped body. -/
def print_str_escape_dot (s : List Char) : List Char :=
  '"' :: s.flatMap escape_dot_char ++ ['"']

/-- Per-character body of print_str_escape_json (part_002), character for
character the same switch as the dot escaper. -/
def escape_json_char (c : Char) : List Char :=
  if c = '"' then ['\\', '"']
  else if c = '\\' then ['\\', '\\']
  else if c = Char.ofNat 8 then ['\\', 'b']
  else if c = Char.ofNat 12 then ['\\', 'f']
  else if c = Char.ofNat 10 then ['\\', 'n']
  else if c = Char.ofNat 13 then ['\\', 'r']
  else if c = Char.ofNat 9 then ['\\', 't']
  else if c.toNat ≤ 31 then '\\' :: 'u' :: hex4 c.toNat
  else [c]

/-- Embedding of print_str_escape_json. -/
def print_str_escape_json (s : List Char) : List Char :=
  '"' :: s.flatMap escape_json_char ++ ['"']

/-- Per-character body of print_str_escape_csv: double the double quote, pass
every other character through unchanged. -/
def escape_csv_char (c : Char) : List Char :=
  if c = '"' then ['"', '"'] else [c]

/-- Embedding of print_str_escape_csv. -/
def print_str_escape_csv (s : List Char) : List Char :=
  '"' :: s.flatMap escape_csv_char ++ ['"']

/-- The escaping contract the specification states for the escapers: every
double quote, backslash and control character is replaced by an escape
sequence (in particular not emitted as itself alone), and every other
character passes through unchanged. -/
def escapesQuoteBackslashControl (enc : Char → List Char) : Prop :=
  (∀ c : Char, (c = '"' ∨ c = '\\' ∨ c.toNat ≤ 31) → enc c ≠ [c]) ∧
  (∀ c : Char, ¬(c = '"' ∨ c = '\\' ∨ c.toNat ≤ 31) → enc c = [c])

example : escape_csv_char '\\' = ['\\'] := by decide
example : escape_dot_char '\\' = ['\\', '\\'] := by decide
example : escape_dot_char (Char.ofNat 7) = ['\\', 'u', '0', '0', '0', '7'] := by decide
example : objKeys (write_as_json_help [⟨["fA"], 8, "tT"⟩]) = ["allocs", "frees", "locations", "types"] := by decide

/-- The location ids referenced from one serialized alloc's stack array. -/
def stackIdsOfAlloc (v : JVal) : List Int :=
  numsOf (arrElems ((objField "stack" v).getD (JVal.arr [])))

/-- Well-formedness of an interning table: the ids are exactly 0, 1, …,
size-1 in insertion order. -/
def idsAreRange (l : List (String × Nat)) : Prop :=
  l.map Prod.snd = List.range l.length

-- == basic lemmas about the association-list embedding ==

theorem alookup_append {κ β : Type} [DecidableEq κ] (l1 l2 : List (κ × β)) (k : κ) :
    alookup (l1 ++ l2) k =
      match alookup l1 k with
      | some v => some v
      | none => alookup l2 k := by
  induction l1 with
  | nil => simp [alookup]
  | cons p rest ih =>
      obtain ⟨k0, v0⟩ := p
      by_cases h : k0 = k <;> simp [alookup, h, ih]

theorem alookup_eq_none_iff {κ β : Type} [DecidableEq κ] (m : List (κ × β)) (k : κ) :
    alookup m k = none ↔ k ∉ m.map Prod.fst := by
  induction m with
  | nil => simp [alookup]
  | cons p rest ih =>
      obtain ⟨k0, v0⟩ := p
      by_cases h : k0 = k
      · subst h
        simp [alookup]
      · simp [alookup, h, ih, Ne.symm h]

theorem alookup_mem {κ β : Type} [DecidableEq κ] {m : List (κ × β)} {k : κ} {v : β}
    (h : alookup m k = some v) : (k, v) ∈ m := by
  induction m with
  | nil => simp [alookup] at h
  | cons p rest ih =>
      obtain ⟨k0, v0⟩ := p
      by_cases hk : k0 = k
      · subst hk
        simp [alookup] at h
        simp [h]
      · simp [alookup, hk] at h
        exact List.mem_cons_of_mem _ (ih h)

theorem alookup_aset_self {κ β : Type} [DecidableEq κ] (m : List (κ × β)) (k : κ) (v : β) :
    alookup (aset m k v) k = some v := by
  induction m with
  | nil => simp [aset, alookup]
  | cons p rest ih =>
      obtain ⟨k0, v0⟩ := p
      by_cases h : k0 = k <;> simp [aset, alookup, h, ih]

theorem alookup_aset_ne {κ β : Type} [DecidableEq κ] (m : List (κ × β)) (k k' : κ) (v : β)
    (h : k' ≠ k) : alookup (aset m k v) k' = alookup m k' := by
  induction m with
  | nil => simp [aset, alookup, Ne.symm h]
  | cons p rest ih =>
      obtain ⟨k0, v0⟩ := p
      by_cases h0 : k0 = k
      · subst h0
        simp [aset, alookup, Ne.symm h]
      · by_cases h1 : k0 = k'
        · subst h1
          simp [aset, alookup, h0, h]
        · simp [aset, alookup, h0, h1, ih]

theorem countOf_incrCount {κ : Type} [DecidableEq κ] (m : List (κ × Nat)) (k k' : κ) :
    countOf (incrCount m k) k' = countOf m k' + (if k' = k then 1 else 0) := by
  induction m with
  | nil =>
      by_cases h : k' = k
      · subst h
        simp [incrCount, countOf, alookup]
      · simp [incrCount, countOf, alookup, h, Ne.symm h]
  | cons p rest ih =>
      obtain ⟨k0, n0⟩ := p
      by_cases h0 : k0 = k
      · subst h0
        by_cases h1 : k0 = k'
        · subst h1
          simp [incrCount, countOf, alookup]
        · simp [incrCount, countOf, alookup, h1, Ne.symm h1]
      · by_cases h1 : k0 = k'
        · subst h1
          simp [incrCount, countOf, alookup, h0, Ne.symm h0]
        · simp only [incrCount, if_neg h0, countOf, alookup, if_neg h1]
          simp only [countOf] at ih
          exact ih

-- == C10: register_type_string is idempotent and per-key minimal ==

/-- C10: register_type_string is idempotent: a first call on an unregistered
type handle inserts exactly the one entry (t, name t); a second call with the
same handle returns the map completely unchanged without invoking the
stringifier; no other key is ever touched; and the map keeps at most one
entry per distinct type handle across every call sequence (distinct keys stay
distinct). -/
theorem register_type_string_idempotent (typeName : Nat → String)
    (m : List (Nat × String)) (t : Nat) :
    (alookup m t = none →
      (register_type_string typeName m t).1 = m ++ [(t, typeName t)]) ∧
    register_type_string typeName (register_type_string typeName m t).1 t
      = ((register_type_string typeName m t).1, false) ∧
    (∀ k, k ≠ t →
      alookup (register_type_string typeName m t).1 k = alookup m k) ∧
    ((m.map Prod.fst).Nodup →
      (((register_type_string typeName m t).1).map Prod.fst).Nodup) := by
  refine ⟨?_, ?_, ?_, ?_⟩
  · intro habs
    simp [register_type_string, habs]
  · rcases hl : alookup m t with _ | v
    · have hpresent : alookup (m ++ [(t, typeName t)]) t = some (typeName t) := by
        rw [alookup_append, hl]
        simp [alookup]
      simp [register_type_string, hl, hpresent]
    · simp [register_type_string, hl]
  · intro k hk
    rcases hl : alookup m t with _ | v
    · rw [register_type_string, hl]
      simp only
      rw [alookup_append]
      rcases hk' : alookup m k with _ | w
      · simp [alookup, Ne.symm hk]
      · simp
    · simp [register_type_string, hl]
  · intro hnd
    rcases hl : alookup m t with _ | v
    · have : t ∉ m.map Prod.fst := (alookup_eq_none_iff m t).mp hl
      simp [register_type_string, hl, List.nodup_append, hnd, this]
    · simpa [register_type_string, hl] using hnd

/-- Witness for C10 at a concrete map and handle. -/
theorem register_type_string_idempotent_witness :
    (register_type_string (fun n => toString n) [(3, "3")] 5).1
        = [(3, "3")] ++ [(5, toString 5)] ∧
    register_type_string (fun n => toString n)
        (register_type_string (fun n => toString n) [(3, "3")] 5).1 5
      = ((register_type_string (fun n => toString n) [(3, "3")] 5).1, false) ∧
    alookup (register_type_string (fun n => toString n) [(3, "3")] 5).1 3
        = alookup [(3, "3")] 3 ∧
    (((register_type_string (fun n => toString n) [(3, "3")] 5).1).map Prod.fst).Nodup := by
  have h := register_type_string_idempotent (fun n => toString n) [(3, "3")] 5
  exact ⟨h.1 (by decide), h.2.1, h.2.2.1 3 (by decide), h.2.2.2 (by decide)⟩

-- == C6: the free hook and the value → type reverse index ==

/-- C6 counterexample: record one allocation of value 10 (type address 7)
with sampling interval 0, then record a free of that same value.  The value's
entry is still present in type_address_by_value_address after the free is
recorded, contradicting the claim that it is removed at that moment. -/
theorem record_freed_keeps_index_counterexample :
    alookup
      (_record_freed_value
        (_record_allocated_value (fun _ => 7) (fun _ => "T") [] (initProfile 0) 10 8)
        10).type_address_by_value_address 10 = some 7 := by
  decide

/-- C6 amended: _record_freed_value never modifies the reverse index (nor the
allocs list): a free for a value recorded in type_address_by_value_address
increments frees_by_type_address for the recorded type and leaves the value's
index entry in place, and a free for an unrecorded value is a no-op.  The
index is never purged, so its size is bounded by the all-time count of
recorded allocations, not by the live-object count. -/
theorem record_freed_value_spec (p : GProfile) (val : Nat) :
    (_record_freed_value p val).type_address_by_value_address
        = p.type_address_by_value_address ∧
    (_record_freed_value p val).allocs = p.allocs ∧
    (∀ ty, alookup p.type_address_by_value_address val = some ty →
      countOf (_record_freed_value p val).frees_by_type_address ty
        = countOf p.frees_by_type_address ty + 1) ∧
    (alookup p.type_address_by_value_address val = none →
      _record_freed_value p val = p) := by
  refine ⟨?_, ?_, ?_, ?_⟩
  · rcases h : alookup p.type_address_by_value_address val with _ | ty
    · simp [_record_freed_value, h]
    · rcases h2 : alookup p.frees_by_type_address ty with _ | n <;>
        simp [_record_freed_value, h, h2]
  · rcases h : alookup p.type_address_by_value_address val with _ | ty
    · simp [_record_freed_value, h]
    · rcases h2 : alookup p.frees_by_type_address ty with _ | n <;>
        simp [_record_freed_value, h, h2]
  · intro ty h
    rcases h2 : alookup p.frees_by_type_address ty with _ | n
    · simp [_record_freed_value, h, h2, countOf, alookup_aset_self]
    · simp [_record_freed_value, h, h2, countOf, alookup_aset_self]
  · intro h
    simp [_record_freed_value, h]

/-- Witness for C6 amended at a concrete profile. -/
theorem record_freed_value_spec_witness :
    countOf
      (_record_freed_value
        (_record_allocated_value (fun _ => 7) (fun _ => "T") [] (initProfile 0) 10 8)
        10).frees_by_type_address 7
      = countOf
          ((_record_allocated_value (fun _ => 7) (fun _ => "T") [] (initProfile 0) 10 8).frees_by_type_address)
          7 + 1 ∧
    _record_freed_value
        (_record_allocated_value (fun _ => 7) (fun _ => "T") [] (initProfile 0) 10 8)
        11
      = _record_allocated_value (fun _ => 7) (fun _ => "T") [] (initProfile 0) 10 8 := by
  refine ⟨?_, ?_⟩
  · exact (record_freed_value_spec
      (_record_allocated_value (fun _ => 7) (fun _ => "T") [] (initProfile 0) 10 8)
      10).2.2.1 7 (by decide)
  · exact (record_freed_value_spec
      (_record_allocated_value (fun _ => 7) (fun _ => "T") [] (initProfile 0) 10 8)
      11).2.2.2 (by decide)

-- == C5: stop-time ordering of the gate clear ==

/-- C5 counterexample: in the call-graph revision of gc-alloc-profiler.cpp,
jl_stop_alloc_profile serializes and flushes before nulling
g_alloc_profile_out, the global that gates the recording hook in that
revision, so the gate is not cleared before the stop-time work. -/
theorem stop_gate_order_counterexample :
    gateClearedBeforeWork .clearOutStream jl_stop_alloc_profile_graph_trace = false := by
  decide

/-- C5 amended: the stop entry points that use the explicit
g_alloc_profile_enabled flag (jl_finish_and_write_alloc_profile, the sampling
revision's jl_stop_and_write_alloc_profile, and the raw-array revision's
jl_stop_alloc_profile) clear the flag before any serialization, flushing or
result assembly; but the call-graph revision's jl_stop_alloc_profile performs
serialization and flushing before clearing its gating global, so allocations
occurring during serialization are still recorded into the session being
finished. -/
theorem stop_gate_order_spec :
    gateClearedBeforeWork .clearEnabledFlag jl_finish_and_write_alloc_profile_trace = true ∧
    gateClearedBeforeWork .clearEnabledFlag jl_stop_and_write_alloc_profile_trace = true ∧
    gateClearedBeforeWork .clearEnabledFlag jl_stop_alloc_profile_raw_trace = true ∧
    gateClearedBeforeWork .clearOutStream jl_stop_alloc_profile_graph_trace = false := by
  decide

-- == C7: behavior of the resolvers on unresolvable entries ==

/-- C7 counterexample: the defensive revision of get_julia_frames returns no
frame at all (not one synthetic frame) for an entry whose code object is not
a CodeInfo, and get_native_frame returns no frame for an entry whose symbol
lookup yields no name. -/
theorem resolution_failure_counterexample :
    (get_julia_frames_defensive (BtCode.noCodeInfo "0x7f00dead")).length = 0 ∧
    ¬ (get_julia_frames_defensive (BtCode.noCodeInfo "0x7f00dead")).length = 1 ∧
    (get_native_frame [(none, "libc.so", 3)]).length = 0 ∧
    ¬ (get_native_frame [(none, "libc.so", 3)]).length = 1 := by
  decide

/-- C7 amended: no resolver aborts on a failing entry, but only the
call-graph revision of get_julia_frames emits exactly one synthetic frame
(pointer string, file "unknown", line 0) for a non-CodeInfo entry; a line
info whose symbol lookup yields no name becomes a frame named "Unknown"; the
defensive revision emits zero frames for a non-CodeInfo entry, and
get_native_frame silently drops entries whose lookup yields no name.  A
sample whose entries all fail still gets recorded (the trie insertion of the
empty resolved stack books the allocation on the current node). -/
theorem resolution_failure_spec :
    (∀ p : String, get_julia_frames (BtCode.noCodeInfo p) = [⟨p, "unknown", 0⟩]) ∧
    (∀ (f : String) (l : Int),
      get_julia_frames (BtCode.codeInfo [⟨none, f, l⟩]) = [⟨"Unknown", f, l⟩]) ∧
    (∀ p : String, get_julia_frames_defensive (BtCode.noCodeInfo p) = []) ∧
    (∀ (f : String) (l : Int) (rest : List (Option String × String × Int)),
      get_native_frame ((none, f, l) :: rest) = get_native_frame rest) ∧
    (∀ ty : Nat, trie_insert (emptyTrie : Trie String) [] ty = Trie.node [] [(ty, 1)]) := by
  refine ⟨?_, ?_, ?_, ?_, ?_⟩
  · intro p
    rfl
  · intro f l
    rfl
  · intro p
    rfl
  · intro f l rest
    simp [get_native_frame]
  · intro ty
    rfl

-- == C9: the escaping contract of the three escapers ==

/-- C9 counterexample: the CSV escaper does not replace the backslash (nor
control characters) with an escape sequence, so the claimed contract fails
for one of the two output formats. -/
theorem escape_csv_claim_counterexample :
    ¬ escapesQuoteBackslashControl escape_csv_char := by
  intro h
  exact h.1 '\\' (Or.inr (Or.inl rfl)) (by decide)

/-- C9 amended: the dot and json escapers honor the claimed contract — every
double quote, backslash and control character (0x00–0x1F) is replaced by an
escape sequence and every other character passes through unchanged in order —
while the CSV escaper only doubles the double quote and passes every other
character, including backslashes and control characters, through unchanged;
all three wrap the body in double quotes. -/
theorem escape_functions_spec :
    escapesQuoteBackslashControl escape_dot_char ∧
    escapesQuoteBackslashControl escape_json_char ∧
    escape_csv_char '"' = ['"', '"'] ∧
    (∀ c : Char, c ≠ '"' → escape_csv_char c = [c]) ∧
    (∀ s : List Char, print_str_escape_dot s = '"' :: s.flatMap escape_dot_char ++ ['"']) ∧
    (∀ s : List Char, print_str_escape_csv s = '"' :: s.flatMap escape_csv_char ++ ['"']) := by
  have hdot : escapesQuoteBackslashControl escape_dot_char := by
    constructor
    · intro c h
      have hlen : 2 ≤ (escape_dot_char c).length := by
        unfold escape_dot_char
        split_ifs with h1 h2 h3 h4 h5 h6 h7 h8
        · simp
        · simp
        · simp
        · simp
        · simp
        · simp
        · simp
        · simp [hex4]
        · exfalso
          rcases h with h | h | h
          · exact h1 h
          · exact h2 h
          · exact h8 h
      intro hEq
      rw [hEq] at hlen
      simp at hlen
    · intro c h
      push_neg at h
      obtain ⟨h1, h2, h3⟩ := h
      have hc8 : c ≠ Char.ofNat 8 := by
        intro hh
        rw [hh] at h3
        exact absurd h3 (by decide)
      have hc12 : c ≠ Char.ofNat 12 := by
        intro hh
        rw [hh] at h3
        exact absurd h3 (by decide)
      have hc10 : c ≠ Char.ofNat 10 := by
        intro hh
        rw [hh] at h3
        exact absurd h3 (by decide)
      have hc13 : c ≠ Char.ofNat 13 := by
        intro hh
        rw [hh] at h3
        exact absurd h3 (by decide)
      have hc9 : c ≠ Char.ofNat 9 := by
        intro hh
        rw [hh] at h3
        exact absurd h3 (by decide)
      unfold escape_dot_char
      rw [if_neg h1, if_neg h2, if_neg hc8, if_neg hc12, if_neg hc10, if_neg hc13,
        if_neg hc9, if_neg (not_le.mpr h3)]
  have hjson : escapesQuoteBackslashControl escape_json_char := by
    have hsame : ∀ c, escape_json_char c = escape_dot_char c := by
      intro c
      rfl
    constructor
    · intro c h
      rw [hsame]
      exact hdot.1 c h
    · intro c h
      rw [hsame]
      exact hdot.2 c h
  refine ⟨hdot, hjson, by decide, ?_, ?_, ?_⟩
  · intro c h
    simp [escape_csv_char, h]
  · intro s
    rfl
  · intro s
    rfl

/-- Witness for C9 amended at concrete characters. -/
theorem escape_functions_spec_witness :
    escape_dot_char (Char.ofNat 7) ≠ [Char.ofNat 7] ∧
    escape_json_char 'a' = ['a'] ∧
    escape_csv_char 'x' = ['x'] :=
  ⟨escape_functions_spec.1.1 (Char.ofNat 7) (Or.inr (Or.inr (by decide))),
   escape_functions_spec.2.1.2 'a' (by decide),
   escape_functions_spec.2.2.2.1 'x' (by decide)⟩

-- == C4: the memoizing frame cache is transparent ==

/-- C4: resolving the same raw entry twice returns frame sequences equal in
content, the second call does not invoke the underlying resolver (the miss
counter, which counts resolver invocations, stays put), the memoized result
agrees extensionally with the unmemoized resolver, and cache consistency is
preserved.  The cache key is the raw entry's bit-identity, so the nativeness
flag passed in is the one determined by the entry's bytes. -/
theorem get_frames_memoized (natF julF : Nat → List StackFrameR)
    (nativeOf : Nat → Bool) (b : GraphBuilder) (e : Nat)
    (hOK : CacheOK nativeOf natF julF b) :
    (get_frames natF julF b e (nativeOf e)).1
        = (if nativeOf e then natF e else julF e) ∧
    (get_frames natF julF (get_frames natF julF b e (nativeOf e)).2 e (nativeOf e)).1
        = (get_frames natF julF b e (nativeOf e)).1 ∧
    (get_frames natF julF (get_frames natF julF b e (nativeOf e)).2 e (nativeOf e)).2.cache_misses
        = (get_frames natF julF b e (nativeOf e)).2.cache_misses ∧
    CacheOK nativeOf natF julF (get_frames natF julF b e (nativeOf e)).2 := by
  rcases hl : alookup b.cache e with _ | fr
  · have hfound :
        alookup (b.cache ++ [(e, if nativeOf e then natF e else julF e)]) e
          = some (if nativeOf e then natF e else julF e) := by
      rw [alookup_append, hl]
      simp [alookup]
    refine ⟨?_, ?_, ?_, ?_⟩
    · simp [get_frames, hl]
    · simp [get_frames, hl, hfound]
    · simp [get_frames, hl, hfound]
    · intro e' fr' h'
      simp only [get_frames, hl] at h'
      rw [alookup_append] at h'
      rcases h2 : alookup b.cache e' with _ | fr2
      · rw [h2] at h'
        by_cases he : e = e'
        · subst he
          simp [alookup] at h'
          simp [h']
        · simp [alookup, he] at h'
      · rw [h2] at h'
        simp at h'
        subst h'
        exact hOK e' fr2 h2
  · have hfr : fr = (if nativeOf e then natF e else julF e) := hOK e fr hl
    refine ⟨?_, ?_, ?_, ?_⟩
    · simp [get_frames, hl, hfr]
    · simp [get_frames, hl]
    · simp [get_frames, hl]
    · intro e' fr' h'
      simp only [get_frames, hl] at h'
      exact hOK e' fr' h'

/-- Witness for C4 at an empty cache and a concrete entry and resolver. -/
theorem get_frames_memoized_witness :
    (get_frames (fun _ => []) (fun n => [⟨"f", "g.jl", 1⟩]) ⟨[], 0, 0⟩ 5 false).1
        = [⟨"f", "g.jl", 1⟩] ∧
    (get_frames (fun _ => []) (fun n => [⟨"f", "g.jl", 1⟩])
        (get_frames (fun _ => []) (fun n => [⟨"f", "g.jl", 1⟩]) ⟨[], 0, 0⟩ 5 false).2
        5 false).1
      = (get_frames (fun _ => []) (fun n => [⟨"f", "g.jl", 1⟩]) ⟨[], 0, 0⟩ 5 false).1 ∧
    (get_frames (fun _ => []) (fun n => [⟨"f", "g.jl", 1⟩])
        (get_frames (fun _ => []) (fun n => [⟨"f", "g.jl", 1⟩]) ⟨[], 0, 0⟩ 5 false).2
        5 false).2.cache_misses
      = (get_frames (fun _ => []) (fun n => [⟨"f", "g.jl", 1⟩]) ⟨[], 0, 0⟩ 5 false).2.cache_misses := by
  have h := get_frames_memoized (fun _ => []) (fun n => [⟨"f", "g.jl", 1⟩])
    (fun _ => false) ⟨[], 0, 0⟩ 5
    (by
      intro e fr hfr
      simp [alookup] at hfr)
  exact ⟨h.1, h.2.1, h.2.2.1⟩

-- == C1: determinism of the fixed-interval sampler ==

theorem record_allocated_value_rec (typeOf : Nat → Nat) (typeName : Nat → String)
    (stack : List Nat) (p : GProfile) (val size : Nat)
    (h : ¬ (p.alloc_counter + 1 - p.last_recorded_alloc < p.skip_every)) :
    (_record_allocated_value typeOf typeName stack p val size).skip_every = p.skip_every ∧
    (_record_allocated_value typeOf typeName stack p val size).alloc_counter
        = p.alloc_counter + 1 ∧
    (_record_allocated_value typeOf typeName stack p val size).last_recorded_alloc
        = p.alloc_counter + 1 ∧
    (_record_allocated_value typeOf typeName stack p val size).allocs
        = p.allocs ++ [⟨typeOf val, stack, size⟩] := by
  simp [_record_allocated_value, h]

theorem record_allocated_value_skip (typeOf : Nat → Nat) (typeName : Nat → String)
    (stack : List Nat) (p : GProfile) (val size : Nat)
    (h : p.alloc_counter + 1 - p.last_recorded_alloc < p.skip_every) :
    _record_allocated_value typeOf typeName stack p val size
      = { p with alloc_counter := p.alloc_counter + 1 } := by
  simp [_record_allocated_value, h]

theorem sample_gate_iff (k n : Nat) (hk : 1 ≤ k) :
    (¬ (n + 1 - k * (n / k) < k)) ↔ k ∣ (n + 1) := by
  have h1 : k * (n / k) ≤ n := by
    calc k * (n / k) = n / k * k := Nat.mul_comm _ _
    _ ≤ n := Nat.div_mul_le_self n k
  have h2 : (¬ (n + 1 - k * (n / k) < k)) ↔ k * (n / k + 1) ≤ n + 1 := by
    have h3 : k * (n / k + 1) = k * (n / k) + k := by ring
    omega
  rw [h2]
  constructor
  · intro h
    have h4 : n / k + 1 ≤ (n + 1) / k := by
      rw [Nat.le_div_iff_mul_le (by omega : 0 < k)]
      calc (n / k + 1) * k = k * (n / k + 1) := Nat.mul_comm _ _
      _ ≤ n + 1 := h
    rw [Nat.succ_div] at h4
    by_cases hd : k ∣ (n + 1)
    · exact hd
    · simp [hd] at h4
  · intro hd
    have h5 : (n + 1) / k = n / k + 1 := by
      rw [Nat.succ_div, if_pos hd]
    have h6 : k * ((n + 1) / k) = n + 1 := Nat.mul_div_cancel' hd
    rw [h5] at h6
    exact le_of_eq h6

theorem runAllocs_state (typeOf : Nat → Nat) (typeName : Nat → String)
    (stackFn : Nat → List Nat) (vals sizes : Nat → Nat) (k : Nat) (hk : 1 ≤ k) :
    ∀ n,
      (runAllocs typeOf typeName stackFn vals sizes k n).skip_every = k ∧
      (runAllocs typeOf typeName stackFn vals sizes k n).alloc_counter = n ∧
      (runAllocs typeOf typeName stackFn vals sizes k n).last_recorded_alloc = k * (n / k) ∧
      (runAllocs typeOf typeName stackFn vals sizes k n).allocs.length = n / k := by
  intro n
  induction n with
  | zero => simp [runAllocs, initProfile]
  | succ n ih =>
      obtain ⟨hsk, hc, hl, hlen⟩ := ih
      by_cases hd : k ∣ (n + 1)
      · have hgate :
            ¬ ((runAllocs typeOf typeName stackFn vals sizes k n).alloc_counter + 1
                - (runAllocs typeOf typeName stackFn vals sizes k n).last_recorded_alloc
                < (runAllocs typeOf typeName stackFn vals sizes k n).skip_every) := by
          rw [hsk, hc, hl]
          exact (sample_gate_iff k n hk).mpr hd
        obtain ⟨g1, g2, g3, g4⟩ := record_allocated_value_rec typeOf typeName (stackFn n)
          (runAllocs typeOf typeName stackFn vals sizes k n) (vals n) (sizes n) hgate
        have h5 : (n + 1) / k = n / k + 1 := by
          rw [Nat.succ_div, if_pos hd]
        have h6 : k * ((n + 1) / k) = n + 1 := Nat.mul_div_cancel' hd
        refine ⟨?_, ?_, ?_, ?_⟩
        · rw [runAllocs, g1, hsk]
        · rw [runAllocs, g2, hc]
        · rw [runAllocs, g3, hc, h6]
        · rw [runAllocs, g4]
          simp [hlen, h5]
      · have hgate :
            (runAllocs typeOf typeName stackFn vals sizes k n).alloc_counter + 1
                - (runAllocs typeOf typeName stackFn vals sizes k n).last_recorded_alloc
                < (runAllocs typeOf typeName stackFn vals sizes k n).skip_every := by
          rw [hsk, hc, hl]
          by_contra hcon
          exact hd ((sample_gate_iff k n hk).mp hcon)
        have hstep := record_allocated_value_skip typeOf typeName (stackFn n)
          (runAllocs typeOf typeName stackFn vals sizes k n) (vals n) (sizes n) hgate
        have h5 : (n + 1) / k = n / k := by
          rw [Nat.succ_div, if_neg hd]
          omega
        refine ⟨?_, ?_, ?_, ?_⟩
        · rw [runAllocs, hstep]
          exact hsk
        · rw [runAllocs, hstep]
          simpa using hc
        · rw [runAllocs, hstep]
          simpa [h5] using hl
        · rw [runAllocs, hstep]
          simpa [h5] using hlen

theorem runAllocs_state_low (typeOf : Nat → Nat) (typeName : Nat → String)
    (stackFn : Nat → List Nat) (vals sizes : Nat → Nat) (k : Nat) (hk : k ≤ 1) :
    ∀ n,
      (runAllocs typeOf typeName stackFn vals sizes k n).skip_every = k ∧
      (runAllocs typeOf typeName stackFn vals sizes k n).alloc_counter = n ∧
      (runAllocs typeOf typeName stackFn vals sizes k n).last_recorded_alloc = n ∧
      (runAllocs typeOf typeName stackFn vals sizes k n).allocs.length = n := by
  intro n
  induction n with
  | zero => simp [runAllocs, initProfile]
  | succ n ih =>
      obtain ⟨hsk, hc, hl, hlen⟩ := ih
      have hgate :
          ¬ ((runAllocs typeOf typeName stackFn vals sizes k n).alloc_counter + 1
              - (runAllocs typeOf typeName stackFn vals sizes k n).last_recorded_alloc
              < (runAllocs typeOf typeName stackFn vals sizes k n).skip_every) := by
        rw [hsk, hc, hl]
        omega
      obtain ⟨g1, g2, g3, g4⟩ := record_allocated_value_rec typeOf typeName (stackFn n)
        (runAllocs typeOf typeName stackFn vals sizes k n) (vals n) (sizes n) hgate
      refine ⟨?_, ?_, ?_, ?_⟩
      · rw [runAllocs, g1, hsk]
      · rw [runAllocs, g2, hc]
      · rw [runAllocs, g3, hc]
      · rw [runAllocs, g4]
        simp [hlen]

theorem filter_dvd_range (k : Nat) (hk : 1 ≤ k) (N : Nat) :
    ((List.range N).filter (fun n => decide (k ∣ (n + 1)))).map (fun n => n + 1)
      = (List.range (N / k)).map (fun i => (i + 1) * k) := by
  induction N with
  | zero => simp
  | succ N ih =>
      rw [List.range_succ, List.filter_append, List.map_append]
      by_cases hd : k ∣ (N + 1)
      · have h5 : (N + 1) / k = N / k + 1 := by
          rw [Nat.succ_div, if_pos hd]
        have h6 : (N / k + 1) * k = N + 1 := by
          have h7 := Nat.div_mul_cancel hd
          rw [h5] at h7
          exact h7
        rw [h5, List.range_succ, List.map_append, ih]
        simp [hd, h6]
      · have h5 : (N + 1) / k = N / k := by
          rw [Nat.succ_div, if_neg hd]
          omega
        rw [h5, ih]
        simp [hd]

/-- C1: for a fresh session with sampling interval k ≥ 1 and any sequence of
N allocation events with no frees, the hook records exactly floor(N/k)
events, exactly at the positions k, 2k, 3k, … of the sequence (an event is
recorded precisely when alloc_counter - last_recorded_alloc ≥ skip_every
after the increment, and last_recorded_alloc is then set to alloc_counter);
a sampling interval of 0 or 1 records every event. -/
theorem sampling_interval_positions (typeOf : Nat → Nat) (typeName : Nat → String)
    (stackFn : Nat → List Nat) (vals sizes : Nat → Nat) (k N : Nat) :
    (1 ≤ k →
      recordedPositions typeOf typeName stackFn vals sizes k N
        = (List.range (N / k)).map (fun i => (i + 1) * k) ∧
      (recordedPositions typeOf typeName stackFn vals sizes k N).length = N / k) ∧
    (k = 0 ∨ k = 1 →
      recordedPositions typeOf typeName stackFn vals sizes k N
        = (List.range N).map (fun n => n + 1)) := by
  constructor
  · intro hk
    have hfilter :
        (List.range N).filter (fun n =>
            decide ((runAllocs typeOf typeName stackFn vals sizes k n).allocs.length
              < (runAllocs typeOf typeName stackFn vals sizes k (n + 1)).allocs.length))
          = (List.range N).filter (fun n => decide (k ∣ (n + 1))) := by
      apply List.filter_congr
      intro n hn
      have h1 := (runAllocs_state typeOf typeName stackFn vals sizes k hk n).2.2.2
      have h2 := (runAllocs_state typeOf typeName stackFn vals sizes k hk (n + 1)).2.2.2
      by_cases hd : k ∣ (n + 1)
      · have h5 : (n + 1) / k = n / k + 1 := by
          rw [Nat.succ_div, if_pos hd]
        simp [h1, h2, h5, hd]
      · have h5 : (n + 1) / k = n / k := by
          rw [Nat.succ_div, if_neg hd]
          omega
        simp [h1, h2, h5, hd]
    constructor
    · rw [recordedPositions, hfilter]
      exact filter_dvd_range k hk N
    · rw [recordedPositions, hfilter]
      rw [filter_dvd_range k hk N]
      simp
  · intro hk
    have hk1 : k ≤ 1 := by omega
    have hfilter :
        (List.range N).filter (fun n =>
            decide ((runAllocs typeOf typeName stackFn vals sizes k n).allocs.length
              < (runAllocs typeOf typeName stackFn vals sizes k (n + 1)).allocs.length))
          = List.range N := by
      rw [List.filter_eq_self]
      intro n hn
      have h1 := (runAllocs_state_low typeOf typeName stackFn vals sizes k hk1 n).2.2.2
      have h2 := (runAllocs_state_low typeOf typeName stackFn vals sizes k hk1 (n + 1)).2.2.2
      simp [h1, h2]
    rw [recordedPositions, hfilter]

/-- Witness for C1 at concrete intervals and sequence lengths. -/
theorem sampling_interval_positions_witness :
    recordedPositions (fun v => v) (fun _ => "T") (fun _ => []) (fun _ => 0)
        (fun _ => 8) 3 10
      = (List.range (10 / 3)).map (fun i => (i + 1) * 3) ∧
    recordedPositions (fun v => v) (fun _ => "T") (fun _ => []) (fun _ => 0)
        (fun _ => 8) 0 4
      = (List.range 4).map (fun n => n + 1) := by
  constructor
  · exact ((sampling_interval_positions (fun v => v) (fun _ => "T") (fun _ => [])
      (fun _ => 0) (fun _ => 8) 3 10).1 (by decide)).1
  · exact (sampling_interval_positions (fun v => v) (fun _ => "T") (fun _ => [])
      (fun _ => 0) (fun _ => 8) 0 4).2 (Or.inl rfl)

-- == C2: path sharing in the stack trie ==

theorem trie_insert_empty_cons {κ : Type} [DecidableEq κ] (k : κ) (r : List κ) (ty : Nat) :
    trie_insert emptyTrie (k :: r) ty = Trie.node [(k, trie_insert emptyTrie r ty)] [] := by
  simp [trie_insert, emptyTrie, alookup, aset]

theorem trie_insert_cons_hit {κ : Type} [DecidableEq κ] (k : κ) (t : Trie κ)
    (al : List (Nat × Nat)) (r : List κ) (ty : Nat) :
    trie_insert (Trie.node [(k, t)] al) (k :: r) ty
      = Trie.node [(k, trie_insert t r ty)] al := by
  simp [trie_insert, Trie.children, alookup, aset]

theorem trie_insert_cons_miss {κ : Type} [DecidableEq κ] (a b : κ) (t : Trie κ)
    (al : List (Nat × Nat)) (u : List κ) (ty : Nat) (hab : a ≠ b) :
    trie_insert (Trie.node [(a, t)] al) (b :: u) ty
      = Trie.node [(a, t), (b, trie_insert emptyTrie u ty)] al := by
  simp [trie_insert, Trie.children, alookup, aset, hab]

theorem trie_insert_emptyTrie {κ : Type} [DecidableEq κ] (ps : List κ) (ty : Nat) :
    trie_insert emptyTrie ps ty = trieChain ps ty 1 := by
  induction ps with
  | nil => simp [trie_insert, emptyTrie, trieChain, incrCount]
  | cons k rest ih =>
      rw [trie_insert_empty_cons, ih]
      simp [trieChain]

theorem trie_insert_trieChain {κ : Type} [DecidableEq κ] (ps : List κ) (ty c : Nat) :
    trie_insert (trieChain ps ty c) ps ty = trieChain ps ty (c + 1) := by
  induction ps with
  | nil => simp [trie_insert, trieChain, incrCount]
  | cons k rest ih =>
      show trie_insert (Trie.node [(k, trieChain rest ty c)] []) (k :: rest) ty = _
      rw [trie_insert_cons_hit, ih]
      simp [trieChain]

theorem lookupPath_trieChain {κ : Type} [DecidableEq κ] (ps : List κ) (ty c : Nat) :
    ∀ i, i ≤ ps.length →
      lookupPath (trieChain ps ty c) (ps.take i) = some (trieChain (ps.drop i) ty c) := by
  induction ps with
  | nil =>
      intro i hi
      have h0 : i = 0 := by simpa using hi
      subst h0
      simp [lookupPath]
  | cons k rest ih =>
      intro i hi
      match i with
      | 0 => simp [lookupPath]
      | j + 1 =>
          simp only [List.take_succ_cons, List.drop_succ_cons]
          rw [lookupPath]
          simp only [trieChain, Trie.children, alookup, if_pos rfl]
          exact ih j (by simpa using hi)

theorem trie_insert_branch {κ : Type} [DecidableEq κ]
    (pre : List κ) (a b : κ) (s u : List κ) (ty1 ty2 : Nat) (hab : a ≠ b) :
    trie_insert (trie_insert emptyTrie (pre ++ a :: s) ty1) (pre ++ b :: u) ty2
      = trieBranch pre a b s u ty1 ty2 := by
  induction pre with
  | nil =>
      simp only [List.nil_append]
      rw [trie_insert_empty_cons, trie_insert_cons_miss a b _ _ _ _ hab]
      rw [trie_insert_emptyTrie, trie_insert_emptyTrie]
      simp [trieBranch]
  | cons key pre' ih =>
      simp only [List.cons_append]
      rw [trie_insert_empty_cons, trie_insert_cons_hit, ih]
      simp [trieBranch]

theorem lookupPath_trieBranch {κ : Type} [DecidableEq κ]
    (pre : List κ) (a b : κ) (s u : List κ) (ty1 ty2 : Nat) :
    ∀ i, i ≤ pre.length →
      lookupPath (trieBranch pre a b s u ty1 ty2) (pre.take i)
        = some (trieBranch (pre.drop i) a b s u ty1 ty2) := by
  induction pre with
  | nil =>
      intro i hi
      have h0 : i = 0 := by simpa using hi
      subst h0
      simp [lookupPath]
  | cons k rest ih =>
      intro i hi
      match i with
      | 0 => simp [lookupPath]
      | j + 1 =>
          simp only [List.take_succ_cons, List.drop_succ_cons]
          rw [lookupPath]
          simp only [trieBranch, Trie.children, alookup, if_pos rfl]
          exact ih j (by simpa using hi)

/-- C2: inserting the same resolved stack with the same type twice into a
fresh trie produces exactly one linear path of nodes (every node before the
terminal has exactly one child and no counts), the node reached by the path
is unique (lookupPath is a function of the key sequence) and shared by both
insertions, and the terminal node's count for the type is 2; inserting two
stacks that agree on a shared leading segment pre and then diverge at a ≠ b shares the nodes of
pre (each with exactly one child) and creates exactly two distinct branches
below the node reached by pre. -/
theorem trie_insert_path_sharing (ps : List String) (ty : Nat)
    (pre s u : List String) (a b : String) (ty1 ty2 : Nat) (hab : a ≠ b) :
    trie_insert (trie_insert emptyTrie ps ty) ps ty = trieChain ps ty 2 ∧
    lookupPath (trie_insert (trie_insert emptyTrie ps ty) ps ty) ps
        = some (Trie.node [] [(ty, 2)]) ∧
    (∀ i, i < ps.length →
      ∃ t, lookupPath (trie_insert (trie_insert emptyTrie ps ty) ps ty) (ps.take i)
              = some t ∧
           t.children.length = 1 ∧ t.allocs = []) ∧
    trie_insert (trie_insert emptyTrie (pre ++ a :: s) ty1) (pre ++ b :: u) ty2
        = trieBranch pre a b s u ty1 ty2 ∧
    (∃ t, lookupPath
            (trie_insert (trie_insert emptyTrie (pre ++ a :: s) ty1) (pre ++ b :: u) ty2)
            pre
          = some t ∧
        t.children.length = 2 ∧
        alookup t.children a = some (trieChain s ty1 1) ∧
        alookup t.children b = some (trieChain u ty2 1)) ∧
    (∀ i, i < pre.length →
      ∃ t, lookupPath
              (trie_insert (trie_insert emptyTrie (pre ++ a :: s) ty1) (pre ++ b :: u) ty2)
              (pre.take i)
            = some t ∧
          t.children.length = 1 ∧ t.allocs = []) := by
  have hdouble : trie_insert (trie_insert emptyTrie ps ty) ps ty = trieChain ps ty 2 := by
    rw [trie_insert_emptyTrie, trie_insert_trieChain]
  have hbranch := trie_insert_branch pre a b s u ty1 ty2 hab
  refine ⟨hdouble, ?_, ?_, hbranch, ?_, ?_⟩
  · rw [hdouble]
    have h := lookupPath_trieChain ps ty 2 ps.length (le_refl _)
    simpa [trieChain] using h
  · intro i hi
    rw [hdouble]
    refine ⟨trieChain (ps.drop i) ty 2, lookupPath_trieChain ps ty 2 i (le_of_lt hi), ?_⟩
    rcases hdrop : ps.drop i with _ | ⟨x, xs⟩
    · rw [List.drop_eq_nil_iff] at hdrop
      omega
    · simp [trieChain, Trie.children, Trie.allocs]
  · rw [hbranch]
    refine ⟨trieBranch [] a b s u ty1 ty2, ?_, ?_, ?_, ?_⟩
    · have h := lookupPath_trieBranch pre a b s u ty1 ty2 pre.length (le_refl _)
      simpa using h
    · simp [trieBranch, Trie.children]
    · simp [trieBranch, Trie.children, alookup]
    · simp [trieBranch, Trie.children, alookup, Ne.symm hab, hab]
  · intro i hi
    rw [hbranch]
    refine ⟨trieBranch (pre.drop i) a b s u ty1 ty2,
      lookupPath_trieBranch pre a b s u ty1 ty2 i (le_of_lt hi), ?_⟩
    rcases hdrop : pre.drop i with _ | ⟨x, xs⟩
    · rw [List.drop_eq_nil_iff] at hdrop
      omega
    · simp [trieBranch, Trie.children, Trie.allocs]

/-- Witness for C2 at concrete stacks. -/
theorem trie_insert_path_sharing_witness :
    trie_insert (trie_insert emptyTrie ["main", "f"] 7) ["main", "f"] 7
        = trieChain ["main", "f"] 7 2 ∧
    lookupPath (trie_insert (trie_insert emptyTrie ["main", "f"] 7) ["main", "f"] 7)
        ["main", "f"] = some (Trie.node [] [(7, 2)]) ∧
    trie_insert (trie_insert emptyTrie (["main"] ++ "g" :: []) 7)
        (["main"] ++ "h" :: []) 8
      = trieBranch ["main"] "g" "h" [] [] 7 8 := by
  have h := trie_insert_path_sharing ["main", "f"] 7 ["main"] [] [] "g" "h" 7 8
    (by decide)
  exact ⟨h.1, h.2.1, h.2.2.2.1⟩

-- == C3: what record_alloc actually does with the stack ==

theorem record_alloc_claim_counterexample :
    ¬ ((cgCountsFor
          (record_alloc (record_alloc [] [⟨false, [1]⟩, ⟨false, [2]⟩] 7)
            [⟨false, [1]⟩, ⟨false, [3]⟩] 7) 7).length
        = (trieCountsFor 7
            (record_alloc_claimed
              (record_alloc_claimed emptyTrie [⟨false, [1]⟩, ⟨false, [2]⟩] 7)
              [⟨false, [1]⟩, ⟨false, [3]⟩] 7)).length) := by
  decide


theorem node_modify_cons (k : Nat) (v : CallGraphNode) (rest : CGNodes)
    (label : Nat) (f : CallGraphNode → CallGraphNode) :
    node_modify ((k, v) :: rest) label f
      = (if k = label then (k, f v) else (k, v)) :: node_modify rest label f := by
  by_cases h : k = label <;> simp [node_modify, h]

theorem alookup_node_modify_self (nodes : CGNodes) (label : Nat)
    (f : CallGraphNode → CallGraphNode) :
    alookup (node_modify nodes label f) label = (alookup nodes label).map f := by
  induction nodes with
  | nil => simp [node_modify, alookup]
  | cons p rest ih =>
      obtain ⟨k, v⟩ := p
      rw [node_modify_cons]
      by_cases hk : k = label
      · subst hk
        rw [if_pos rfl, alookup, if_pos rfl, alookup, if_pos rfl]
        rfl
      · rw [if_neg hk, alookup, if_neg hk, alookup, if_neg hk, ih]

theorem alookup_node_modify_ne (nodes : CGNodes) (label : Nat)
    (f : CallGraphNode → CallGraphNode) (l : Nat) (h : l ≠ label) :
    alookup (node_modify nodes label f) l = alookup nodes l := by
  induction nodes with
  | nil => simp [node_modify, alookup]
  | cons p rest ih =>
      obtain ⟨k, v⟩ := p
      rw [node_modify_cons]
      by_cases hk : k = label
      · subst hk
        have hkl : ¬ k = l := fun hh => h hh.symm
        rw [if_pos rfl, alookup, if_neg hkl, alookup, if_neg hkl, ih]
      · by_cases hkl : k = l
        · subst hkl
          rw [if_neg hk, alookup, if_pos rfl, alookup, if_pos rfl]
        · rw [if_neg hk, alookup, if_neg hkl, alookup, if_neg hkl, ih]

theorem get_or_insert_present (nodes : CGNodes) (label : Nat) (b : Bool) :
    ∃ v, alookup (get_or_insert_node nodes label b) label = some v := by
  unfold get_or_insert_node
  rcases h : alookup nodes label with _ | v
  · rw [alookup_append, h]
    simp [alookup]
  · exact ⟨v, h⟩

theorem allocCountCG_get_or_insert (nodes : CGNodes) (label : Nat) (b : Bool) (l t : Nat) :
    allocCountCG (get_or_insert_node nodes label b) l t = allocCountCG nodes l t := by
  unfold get_or_insert_node
  rcases h : alookup nodes label with _ | v
  · unfold allocCountCG
    rw [alookup_append]
    rcases h2 : alookup nodes l with _ | w
    · by_cases hl : l = label
      · subst hl
        simp [alookup, countOf]
      · have hne : ¬ label = l := fun hh => hl hh.symm
        simp [alookup, hne]
    · simp
  · rfl

theorem edgeCountCG_get_or_insert (nodes : CGNodes) (label : Nat) (b : Bool) (l m : Nat) :
    edgeCountCG (get_or_insert_node nodes label b) l m = edgeCountCG nodes l m := by
  unfold get_or_insert_node
  rcases h : alookup nodes label with _ | v
  · unfold edgeCountCG
    rw [alookup_append]
    rcases h2 : alookup nodes l with _ | w
    · by_cases hl : l = label
      · subst hl
        simp [alookup, countOf]
      · have hne : ¬ label = l := fun hh => hl hh.symm
        simp [alookup, hne]
    · simp
  · rfl

theorem allocCountCG_modify_edge (nodes : CGNodes) (label p l t : Nat) :
    allocCountCG (node_modify nodes label (fun n => add_call_edge n p)) l t
      = allocCountCG nodes l t := by
  by_cases hl : l = label
  · subst hl
    unfold allocCountCG
    rw [alookup_node_modify_self]
    rcases alookup nodes l with _ | v
    · rfl
    · rfl
  · unfold allocCountCG
    rw [alookup_node_modify_ne _ _ _ _ hl]

theorem edgeCountCG_modify_incr (nodes : CGNodes) (label ty l m : Nat) :
    edgeCountCG (node_modify nodes label (fun n => incr_or_add_alloc n ty)) l m
      = edgeCountCG nodes l m := by
  by_cases hl : l = label
  · subst hl
    unfold edgeCountCG
    rw [alookup_node_modify_self]
    rcases alookup nodes l with _ | v
    · rfl
    · rfl
  · unfold edgeCountCG
    rw [alookup_node_modify_ne _ _ _ _ hl]

theorem allocCountCG_modify_incr (nodes : CGNodes) (label ty l t : Nat)
    (h : ∃ v, alookup nodes label = some v) :
    allocCountCG (node_modify nodes label (fun n => incr_or_add_alloc n ty)) l t
      = allocCountCG nodes l t + (if l = label ∧ t = ty then 1 else 0) := by
  by_cases hl : l = label
  · subst hl
    obtain ⟨v, hv⟩ := h
    unfold allocCountCG
    rw [alookup_node_modify_self, hv]
    show countOf (incrCount v.allocs_by_type_address ty) t
        = countOf v.allocs_by_type_address t + (if l = l ∧ t = ty then 1 else 0)
    rw [countOf_incrCount]
    by_cases ht : t = ty <;> simp [ht]
  · unfold allocCountCG
    rw [alookup_node_modify_ne _ _ _ _ hl]
    simp [hl]

theorem edgeCountCG_modify_addEdge (nodes : CGNodes) (label p l m : Nat)
    (h : ∃ v, alookup nodes label = some v) :
    edgeCountCG (node_modify nodes label (fun n => add_call_edge n p)) l m
      = edgeCountCG nodes l m + (if l = label ∧ m = p then 1 else 0) := by
  by_cases hl : l = label
  · subst hl
    obtain ⟨v, hv⟩ := h
    unfold edgeCountCG
    rw [alookup_node_modify_self, hv]
    show countOf (incrCount v.calls_out p) m
        = countOf v.calls_out m + (if l = l ∧ m = p then 1 else 0)
    rw [countOf_incrCount]
    by_cases hm : m = p <;> simp [hm]
  · unfold edgeCountCG
    rw [alookup_node_modify_ne _ _ _ _ hl]
    simp [hl]

theorem record_alloc_go_some_allocs (ty : Nat) (labels : List Nat) :
    ∀ (nodes : CGNodes) (q l t : Nat),
      allocCountCG (record_alloc_go ty nodes (some q) labels) l t
        = allocCountCG nodes l t := by
  induction labels with
  | nil =>
      intro nodes q l t
      rfl
  | cons lab rest ih =>
      intro nodes q l t
      show allocCountCG (record_alloc_go ty
        (node_modify (get_or_insert_node nodes lab false) lab (fun n => add_call_edge n q))
        (some lab) rest) l t = allocCountCG nodes l t
      rw [ih, allocCountCG_modify_edge, allocCountCG_get_or_insert]

theorem record_alloc_go_some_edges (ty : Nat) (labels : List Nat) :
    ∀ (nodes : CGNodes) (q l m : Nat),
      edgeCountCG (record_alloc_go ty nodes (some q) labels) l m
        = edgeCountCG nodes l m + adjCount (q :: labels) l m := by
  induction labels with
  | nil =>
      intro nodes q l m
      simp [record_alloc_go, adjCount]
  | cons lab rest ih =>
      intro nodes q l m
      show edgeCountCG (record_alloc_go ty
        (node_modify (get_or_insert_node nodes lab false) lab (fun n => add_call_edge n q))
        (some lab) rest) l m = _
      rw [ih]
      rw [edgeCountCG_modify_addEdge _ _ _ _ _ (get_or_insert_present nodes lab false),
        edgeCountCG_get_or_insert]
      have hadj : adjCount (q :: lab :: rest) l m
          = (if lab = l ∧ q = m then 1 else 0) + adjCount (lab :: rest) l m := rfl
      rw [hadj]
      by_cases hc : l = lab ∧ m = q
      · rw [if_pos hc, if_pos ⟨hc.1.symm, hc.2.symm⟩]
        omega
      · rw [if_neg hc, if_neg (fun hh => hc ⟨hh.1.symm, hh.2.symm⟩)]
        omega

/-- C3 amended: record_alloc walks the captured (innermost-first) backtrace
in order over one flat map of nodes keyed by frame identity — there is no
session root and no per-parent child lookup; if the stack flattens to no
Julia frame labels the profile is unchanged; otherwise the allocation count
for the type is incremented exactly on the node of the first label walked
(the innermost frame), before the rest of the stack is consumed, and every
adjacent pair of walked labels adds exactly one call edge from the later
(outer) label's node to the earlier (inner) label. -/
theorem record_alloc_spec (nodes : CGNodes) (stack : List BtEntry) (ty : Nat) :
    (flattenStack stack = [] → record_alloc nodes stack ty = nodes) ∧
    (∀ l rest, flattenStack stack = l :: rest →
      (∀ n t, allocCountCG (record_alloc nodes stack ty) n t
          = allocCountCG nodes n t + (if n = l ∧ t = ty then 1 else 0)) ∧
      (∀ n m, edgeCountCG (record_alloc nodes stack ty) n m
          = edgeCountCG nodes n m + adjCount (l :: rest) n m)) := by
  constructor
  · intro h
    rw [record_alloc, h]
    rfl
  · intro l rest h
    constructor
    · intro n t
      rw [record_alloc, h]
      show allocCountCG (record_alloc_go ty
        (node_modify (get_or_insert_node nodes l false) l (fun nd => incr_or_add_alloc nd ty))
        (some l) rest) n t = _
      rw [record_alloc_go_some_allocs,
        allocCountCG_modify_incr _ _ _ _ _ (get_or_insert_present nodes l false),
        allocCountCG_get_or_insert]
    · intro n m
      rw [record_alloc, h]
      show edgeCountCG (record_alloc_go ty
        (node_modify (get_or_insert_node nodes l false) l (fun nd => incr_or_add_alloc nd ty))
        (some l) rest) n m = _
      rw [record_alloc_go_some_edges, edgeCountCG_modify_incr, edgeCountCG_get_or_insert]

/-- Witness for C3 amended at a concrete two-frame stack. -/
theorem record_alloc_spec_witness :
    allocCountCG (record_alloc [] [⟨false, [1]⟩, ⟨false, [2]⟩] 7) 1 7
        = allocCountCG [] 1 7 + 1 ∧
    edgeCountCG (record_alloc [] [⟨false, [1]⟩, ⟨false, [2]⟩] 7) 2 1
        = edgeCountCG [] 2 1 + adjCount [1, 2] 2 1 := by
  have h := (record_alloc_spec [] [⟨false, [1]⟩, ⟨false, [2]⟩] 7).2 1 [2] (by decide)
  constructor
  · have h1 := h.1 1 7
    simpa using h1
  · exact h.2 2 1

-- == C8: shape of the structured interchange output ==

/-- C8 counterexample: on a one-alloc profile the locations entries carry the
field names loc and id — not id and name as claimed: the field list is
[loc, id], and no locations entry has a "name" field. -/
theorem write_as_json_locations_counterexample :
    (arrElems ((objField "locations"
          (write_as_json_help [⟨["frameA"], 8, "TypeT"⟩])).getD (JVal.arr []))).map objKeys
        = [["loc", "id"]] ∧
    ¬ (∀ v ∈ arrElems ((objField "locations"
          (write_as_json_help [⟨["frameA"], 8, "TypeT"⟩])).getD (JVal.arr [])),
        "name" ∈ objKeys v) := by
  constructor
  · rfl
  · decide

theorem alookup_cons_eq {κ β : Type} [DecidableEq κ] (k : κ) (v0 : β)
    (rest : List (κ × β)) : alookup ((k, v0) :: rest) k = some v0 := by
  simp [alookup]

theorem alookup_cons_ne {κ β : Type} [DecidableEq κ] (k0 k : κ) (v0 : β)
    (rest : List (κ × β)) (h : ¬ k0 = k) :
    alookup ((k0, v0) :: rest) k = alookup rest k := by
  simp [alookup, h]

theorem get_location_id_spec (st : SerializationState) (f : String)
    (hwf : idsAreRange st.location_ids) :
    idsAreRange (get_location_id st f).2.location_ids ∧
    (∃ ext, (get_location_id st f).2.location_ids = st.location_ids ++ ext) ∧
    (get_location_id st f).1 < (get_location_id st f).2.location_ids.length ∧
    (get_location_id st f).2.type_ids = st.type_ids := by
  unfold get_location_id
  rcases h : alookup st.location_ids f with _ | i
  · refine ⟨?_, ⟨[(f, st.location_ids.length)], rfl⟩, ?_, rfl⟩
    · unfold idsAreRange at hwf ⊢
      simp [hwf, List.range_succ]
    · simp
  · refine ⟨hwf, ⟨[], by simp⟩, ?_, rfl⟩
    have hmem : (f, i) ∈ st.location_ids := alookup_mem h
    have h2 : i ∈ st.location_ids.map Prod.snd := List.mem_map_of_mem _ hmem
    rw [hwf] at h2
    simpa using h2

theorem get_type_id_locs (st : SerializationState) (ty : String) :
    (get_type_id st ty).2.location_ids = st.location_ids := by
  unfold get_type_id
  rcases h : alookup st.type_ids ty with _ | i <;> rfl

theorem numsOf_map_ofNat (l : List Nat) :
    numsOf (l.map (fun i => JVal.num (Int.ofNat i))) = l.map Int.ofNat := by
  induction l with
  | nil => rfl
  | cons x xs ih => simp [numsOf, List.filterMap_cons] at ih ⊢; exact ih

theorem transform_stack_spec (frames : List String) :
    ∀ (st : SerializationState), idsAreRange st.location_ids →
      idsAreRange (transform_stack st frames).2.location_ids ∧
      (∃ ext, (transform_stack st frames).2.location_ids = st.location_ids ++ ext) ∧
      (∀ i ∈ (transform_stack st frames).1,
        i < (transform_stack st frames).2.location_ids.length) ∧
      (transform_stack st frames).2.type_ids = st.type_ids := by
  induction frames with
  | nil =>
      intro st hwf
      refine ⟨hwf, ⟨[], ?_⟩, ?_, rfl⟩
      · show st.location_ids = st.location_ids ++ []
        simp
      · intro i hi
        simp [transform_stack] at hi
  | cons f rest ih =>
      intro st hwf
      obtain ⟨g1, ⟨ext1, g2⟩, g3, g4⟩ := get_location_id_spec st f hwf
      obtain ⟨t1, ⟨ext2, t2⟩, t3, t4⟩ := ih (get_location_id st f).2 g1
      have hcomp : transform_stack st (f :: rest)
          = ((get_location_id st f).1
              :: (transform_stack (get_location_id st f).2 rest).1,
             (transform_stack (get_location_id st f).2 rest).2) := rfl
      rw [hcomp]
      dsimp only
      have hlen := congrArg List.length t2
      simp only [List.length_append] at hlen
      refine ⟨t1, ⟨ext1 ++ ext2, by rw [t2, g2, List.append_assoc]⟩, ?_, by rw [t4, g4]⟩
      intro j hj
      rcases List.mem_cons.mp hj with hj | hj
      · subst hj
        omega
      · exact t3 j hj

theorem serialize_allocs_spec (allocs : List AllocInput) :
    ∀ (st : SerializationState), idsAreRange st.location_ids →
      idsAreRange (serialize_allocs st allocs).2.location_ids ∧
      (∃ ext, (serialize_allocs st allocs).2.location_ids = st.location_ids ++ ext) ∧
      (∀ v ∈ (serialize_allocs st allocs).1,
        objKeys v = ["stack", "size", "type_id"] ∧
        ∀ j ∈ stackIdsOfAlloc v,
          0 ≤ j ∧ j.toNat < (serialize_allocs st allocs).2.location_ids.length) := by
  induction allocs with
  | nil =>
      intro st hwf
      refine ⟨hwf, ⟨[], ?_⟩, ?_⟩
      · show st.location_ids = st.location_ids ++ []
        simp
      · intro v hv
        simp [serialize_allocs] at hv
  | cons a rest ih =>
      intro st hwf
      obtain ⟨g1, ⟨ext1, g2⟩, g3, g4⟩ := transform_stack_spec a.stacktrace st hwf
      have g1' : idsAreRange
          (get_type_id (transform_stack st a.stacktrace).2 a.type).2.location_ids := by
        rw [get_type_id_locs]
        exact g1
      obtain ⟨t1, ⟨ext2, t2⟩, t3⟩ :=
        ih (get_type_id (transform_stack st a.stacktrace).2 a.type).2 g1'
      have hcomp : serialize_allocs st (a :: rest)
          = (JVal.obj
              [("stack", JVal.arr ((transform_stack st a.stacktrace).1.map
                  (fun i => JVal.num (Int.ofNat i)))),
               ("size", JVal.num a.bytes_allocated),
               ("type_id", JVal.num (Int.ofNat
                  (get_type_id (transform_stack st a.stacktrace).2 a.type).1))]
              :: (serialize_allocs
                  (get_type_id (transform_stack st a.stacktrace).2 a.type).2 rest).1,
             (serialize_allocs
                (get_type_id (transform_stack st a.stacktrace).2 a.type).2 rest).2) := rfl
      rw [hcomp]
      dsimp only
      rw [get_type_id_locs] at t2
      have hlen := congrArg List.length t2
      simp only [List.length_append] at hlen
      refine ⟨t1, ⟨ext1 ++ ext2, by rw [t2, g2, List.append_assoc]⟩, ?_⟩
      intro v hv
      rcases List.mem_cons.mp hv with hv | hv
      · subst hv
        refine ⟨rfl, ?_⟩
        intro j hj
        rw [show stackIdsOfAlloc (JVal.obj
              [("stack", JVal.arr ((transform_stack st a.stacktrace).1.map
                  (fun i => JVal.num (Int.ofNat i)))),
               ("size", JVal.num a.bytes_allocated),
               ("type_id", JVal.num (Int.ofNat
                  (get_type_id (transform_stack st a.stacktrace).2 a.type).1))])
            = numsOf ((transform_stack st a.stacktrace).1.map
                (fun i => JVal.num (Int.ofNat i))) from rfl,
          numsOf_map_ofNat] at hj
        obtain ⟨i, hi, rfl⟩ := List.mem_map.mp hj
        have hb := g3 i hi
        refine ⟨Int.ofNat_nonneg i, ?_⟩
        have htn : (Int.ofNat i).toNat = i := rfl
        rw [htn]
        omega
      · exact t3 v hv

theorem locations_filter_count (l : List (String × Nat)) (i : Int) :
    ((l.map (fun p => JVal.obj [("loc", JVal.str p.1), ("id", JVal.num (Int.ofNat p.2))])).filter
        (idFieldIs i)).length
      = ((l.map Prod.snd).filter (fun j => Int.ofNat j == i)).length := by
  induction l with
  | nil => rfl
  | cons p rest ih =>
      have hf : idFieldIs i
          (JVal.obj [("loc", JVal.str p.1), ("id", JVal.num (Int.ofNat p.2))])
          = (Int.ofNat p.2 == i) := rfl
      simp only [List.map_cons, List.filter_cons, hf]
      by_cases hb : (Int.ofNat p.2 == i) = true
      · rw [if_pos hb, if_pos hb]
        simp only [List.length_cons, ih]
      · rw [if_neg hb, if_neg hb]
        exact ih

theorem filter_beq_range_of_lt (n k : Nat) (hk : k < n) :
    ((List.range n).filter (fun j => j == k)).length = 1 := by
  induction n with
  | zero => omega
  | succ n ih =>
      rw [List.range_succ, List.filter_append, List.length_append]
      by_cases h : k < n
      · have hne : (n == k) = false := by
          simp only [beq_eq_false_iff_ne]
          omega
        rw [ih h]
        simp [hne]
      · have hkn : k = n := by omega
        subst hkn
        have hempty : ((List.range k).filter (fun j => j == k)).length = 0 := by
          rw [List.length_eq_zero, List.filter_eq_nil_iff]
          intro j hj
          simp only [List.mem_range] at hj
          simp only [beq_iff_eq]
          omega
        rw [hempty]
        simp

/-- C8 amended: the structured interchange serializer emits an object with
exactly the four keys allocs, frees, locations, types; every allocs entry is
an object with exactly the fields stack, size and type_id; frees is the
empty array; every types entry has exactly the fields name and id; every
locations entry has exactly the fields loc and id (loc, not name, carries
the rendered frame); and every location id referenced from any stack array
occurs as the id of exactly one locations entry. -/
theorem write_as_json_help_shape (allocs : List AllocInput) :
    objKeys (write_as_json_help allocs) = ["allocs", "frees", "locations", "types"] ∧
    (∀ v ∈ arrElems ((objField "allocs" (write_as_json_help allocs)).getD (JVal.arr [])),
      objKeys v = ["stack", "size", "type_id"]) ∧
    arrElems ((objField "frees" (write_as_json_help allocs)).getD (JVal.arr [])) = [] ∧
    (∀ v ∈ arrElems ((objField "locations" (write_as_json_help allocs)).getD (JVal.arr [])),
      objKeys v = ["loc", "id"]) ∧
    (∀ v ∈ arrElems ((objField "types" (write_as_json_help allocs)).getD (JVal.arr [])),
      objKeys v = ["name", "id"]) ∧
    (∀ i ∈ stackIdsOf (write_as_json_help allocs),
      locationsIdCount (write_as_json_help allocs) i = 1) := by
  have hwf0 : idsAreRange (SerializationState.mk [] []).location_ids := rfl
  obtain ⟨sp1, ⟨ext, sp2⟩, sp3⟩ := serialize_allocs_spec allocs ⟨[], []⟩ hwf0
  have hallocs : (objField "allocs" (write_as_json_help allocs)).getD (JVal.arr [])
      = JVal.arr (serialize_allocs ⟨[], []⟩ allocs).1 := rfl
  have hfrees : (objField "frees" (write_as_json_help allocs)).getD (JVal.arr [])
      = JVal.arr [] := rfl
  have hlocs : (objField "locations" (write_as_json_help allocs)).getD (JVal.arr [])
      = JVal.arr ((serialize_allocs ⟨[], []⟩ allocs).2.location_ids.map (fun p =>
          JVal.obj [("loc", JVal.str p.1), ("id", JVal.num (Int.ofNat p.2))])) := rfl
  have htypes : (objField "types" (write_as_json_help allocs)).getD (JVal.arr [])
      = JVal.arr ((serialize_allocs ⟨[], []⟩ allocs).2.type_ids.map (fun p =>
          JVal.obj [("name", JVal.str p.1), ("id", JVal.num (Int.ofNat p.2))])) := rfl
  refine ⟨rfl, ?_, ?_, ?_, ?_, ?_⟩
  · intro v hv
    rw [hallocs] at hv
    exact (sp3 v hv).1
  · rw [hfrees]
    rfl
  · intro v hv
    rw [hlocs] at hv
    simp only [arrElems] at hv
    obtain ⟨p, hp, rfl⟩ := List.mem_map.mp hv
    rfl
  · intro v hv
    rw [htypes] at hv
    simp only [arrElems] at hv
    obtain ⟨p, hp, rfl⟩ := List.mem_map.mp hv
    rfl
  · intro i hi
    have hstack : stackIdsOf (write_as_json_help allocs)
        = (serialize_allocs ⟨[], []⟩ allocs).1.flatMap stackIdsOfAlloc := rfl
    rw [hstack] at hi
    obtain ⟨v, hv, hiv⟩ := List.mem_flatMap.mp hi
    obtain ⟨hnn, hlt⟩ := (sp3 v hv).2 i hiv
    have hcount : locationsIdCount (write_as_json_help allocs) i
        = (((serialize_allocs ⟨[], []⟩ allocs).2.location_ids.map Prod.snd).filter
            (fun j => Int.ofNat j == i)).length := by
      unfold locationsIdCount
      rw [hlocs]
      simp only [arrElems]
      exact locations_filter_count _ i
    rw [hcount, sp1]
    have hpt : ∀ j ∈ List.range
        (serialize_allocs ⟨[], []⟩ allocs).2.location_ids.length,
        ((fun j => Int.ofNat j == i) j = (fun j => j == i.toNat) j) := by
      intro j hj
      show (Int.ofNat j == i) = (j == i.toNat)
      have hceq : Int.ofNat j = (j : Int) := rfl
      by_cases h : j = i.toNat
      · have he : Int.ofNat j = i := by
          rw [hceq]
          omega
        simp [he, h]
        exact hnn
      · have he : ¬ Int.ofNat j = i := by
          rw [hceq]
          omega
        rw [beq_eq_false_iff_ne.mpr he, beq_eq_false_iff_ne.mpr h]
    rw [List.filter_congr hpt]
    exact filter_beq_range_of_lt _ _ hlt

/-- Witness for C8 amended at a concrete one-alloc profile. -/
theorem write_as_json_help_shape_witness :
    objKeys (write_as_json_help [⟨["fA", "fB"], 8, "T"⟩])
        = ["allocs", "frees", "locations", "types"] ∧
    locationsIdCount (write_as_json_help [⟨["fA", "fB"], 8, "T"⟩]) (Int.ofNat 0) = 1 := by
  have h := write_as_json_help_shape [⟨["fA", "fB"], 8, "T"⟩]
  exact ⟨h.1, h.2.2.2.2.2 (Int.ofNat 0) (by decide)⟩
